import Mathlib

/-!
Shallow embedding of the sentiment-analysis / article-generation script
(`src/app.py`) of the reviewed repository.

A dataframe is modelled as a `List` of row structures; pandas operations
(`groupby`/`mean`/`merge`, `nlargest`/`nsmallest`, boolean-mask filtering,
`Series.map`, `unique`) are translated operation by operation.  Real-valued
scores are modelled with `Rat` (the averages involved are exact finite
means of integers, so rationals capture the intended arithmetic).

The external pieces (TF-IDF vectorizer + SVM model, OpenAI completion) are
black boxes in the program and are modelled as function parameters
(`predict : String → String`, `complete : GenRequest → Except String String`).
-/

namespace SentApp

/-- A row of the uploaded review table.  The input CSV provides
`reviews.text`, `name` (product) and `cluster_name` (category); the
`sentiment` and `sentiment_score` columns do not exist before
`process_reviews` runs, which is modelled by `Option` fields defaulting to
`none`.  `sentiment_score` is an `Option` because the source computes it
with `Series.map` over a dict, which yields a missing value (NaN) for any
key not in the dict. -/
structure Row where
  reviews_text : String
  name : String
  cluster_name : String
  sentiment : Option String := none
  sentiment_score : Option Rat := none
deriving Repr, DecidableEq

/-- The dict `{'positive': 2, 'neutral': 1, 'negative': 0}` used in
`process_reviews` (src/app.py line 35), as the partial lookup that
`Series.map` performs: keys outside the dict map to a missing value. -/
def label_score_map (lbl : String) : Option Rat :=
  if lbl = "positive" then some 2
  else if lbl = "neutral" then some 1
  else if lbl = "negative" then some 0
  else none

/-- Embedding of `process_reviews` (src/app.py lines 31-36).

```python
def process_reviews(df, vectorizer, model):
    X = vectorizer.transform(df['reviews.text'])
    df['sentiment'] = model.predict(X)
    df['sentiment_score'] = df['sentiment'].map({'positive': 2, 'neutral': 1, 'negative': 0})
    return df
```

`predict` abstracts the composition `model.predict ∘ vectorizer.transform`
applied per row.  The two column assignments mutate the argument dataframe
in place and the same object is returned, so the embedding returns a pair
`(returned table, state of the caller's table after the call)`; the two
components are the same list because `df` is a single mutated object. -/
def process_reviews (predict : String → String) (df : List Row) :
    List Row × List Row :=
  let df1 := df.map (fun r => { r with sentiment := some (predict r.reviews_text) })
  let df2 := df1.map (fun r => { r with sentiment_score := r.sentiment.bind label_score_map })
  (df2, df2)

/-- A row of the table handed to the aggregator: by that point the
pipeline has given every row a (numeric) sentiment score. -/
structure SRow where
  reviews_text : String
  name : String
  cluster_name : String
  sentiment_score : Rat
deriving Repr, DecidableEq

/-- A row of the merged table: an `SRow` plus the `sentiment_score_avg`
column added by `calculate_average_scores` (the merge keeps the left
frame's columns unchanged and the right frame's mean column gets the
`_avg` suffix). -/
structure ARow extends SRow where
  sentiment_score_avg : Rat
deriving Repr, DecidableEq

/-- A row of the intermediate frame `product_scores` built by
`groupby(['cluster_name', 'name'])['sentiment_score'].mean().reset_index()`:
one row per (category, product) key, holding the group's mean score. -/
structure GRow where
  cluster_name : String
  name : String
  sentiment_score : Rat
deriving Repr, DecidableEq

/-- Mean of a list of rationals, as `pandas` computes a group mean:
sum divided by count (groups produced by `groupby` are never empty). -/
def ratMean (l : List Rat) : Rat := l.sum / l.length

/-- The rows of `df` belonging to the (category, product) group `(c, p)`. -/
def groupRows (df : List SRow) (c p : String) : List SRow :=
  df.filter (fun r => decide (r.cluster_name = c ∧ r.name = p))

/-- The mean sentiment score of the (category, product) group `(c, p)`. -/
def groupMean (df : List SRow) (c p : String) : Rat :=
  ratMean ((groupRows df c p).map (·.sentiment_score))

/-- The rows of `df` belonging to category `c` (used to relate the
reporter's per-category view back to the aggregator's input). -/
def categoryRows (df : List SRow) (c : String) : List SRow :=
  df.filter (fun r => decide (r.cluster_name = c))

/-- Embedding of
`df.groupby(['cluster_name', 'name'])['sentiment_score'].mean().reset_index()`
(src/app.py line 42): one row per distinct (cluster_name, name) key with
the group's mean score.  (`groupby` emits keys sorted; the key order of
this intermediate frame is unobservable after the merge, so the embedding
keeps them in a deduplicated traversal order.) -/
def product_scores (df : List SRow) : List GRow :=
  ((df.map (fun r => (r.cluster_name, r.name))).dedup).map
    (fun k => ⟨k.1, k.2, groupMean df k.1 k.2⟩)

/-- Embedding of `df.merge(product_scores, on=['cluster_name', 'name'],
suffixes=('', '_avg'))` (src/app.py line 43): a relational inner join —
for each left row in order, one output row per right row with an equal
key, carrying the left columns and the right frame's mean as
`sentiment_score_avg`. -/
def mergeAvg (df : List SRow) (ps : List GRow) : List ARow :=
  df.flatMap (fun r =>
    (ps.filter (fun g => decide (g.cluster_name = r.cluster_name ∧ g.name = r.name))).map
      (fun g => ⟨r, g.sentiment_score⟩))

/-- Embedding of `calculate_average_scores` (src/app.py lines 38-43). -/
def calculate_average_scores (df : List SRow) : List ARow :=
  mergeAvg df (product_scores df)

/-! ### Reporter (category loop, src/app.py lines 98-123) -/

/-- Lexicographic comparison of strings as character lists.  This agrees
with the `<` of `String`'s linear order (see `strLt_iff` below) and is
phrased so that it evaluates on concrete strings. -/
def strLt (a b : String) : Bool := decide (a.data < b.data)

/-- Sorted insertion that skips duplicates: the inductive step of the
sorted, deduplicated key sequence a `groupby` with the default
`sort=True` emits. -/
def insertKey (a : String) : List String → List String
  | [] => [a]
  | b :: bs =>
    if strLt a b then a :: b :: bs
    else if strLt b a then b :: insertKey a bs
    else b :: bs

/-- The distinct values of a list, in ascending order: the index a pandas
`groupby(key)` (default `sort=True`) produces. -/
def sortKeys : List String → List String
  | [] => []
  | a :: as => insertKey a (sortKeys as)

/-- Embedding of `category_df = df[df['cluster_name'] == category]`
(src/app.py line 100): boolean-mask filtering keeps table order. -/
def category_df (df : List ARow) (c : String) : List ARow :=
  df.filter (fun r => decide (r.cluster_name = c))

/-- Embedding of
`category_df.groupby('name')['sentiment_score_avg'].mean().reset_index()`
(src/app.py lines 103-106): one `(name, mean)` row per distinct product
of the category, products in ascending name order (`groupby` default
`sort=True`). -/
def product_sentiments (df : List ARow) (c : String) : List (String × Rat) :=
  (sortKeys ((category_df df c).map (·.name))).map
    (fun p => (p, ratMean (((category_df df c).filter (fun r => decide (r.name = p))).map
      (·.sentiment_score_avg))))

/-- Stable descending insertion on `(name, score)` pairs: an earlier
element `a` passes a later element `b` only when `b`'s score is strictly
greater, so equal scores keep their original relative order — the
`keep='first'` tie behaviour of `DataFrame.nlargest`. -/
def insDesc (a : String × Rat) : List (String × Rat) → List (String × Rat)
  | [] => [a]
  | b :: bs => if a.2 < b.2 then b :: insDesc a bs else a :: b :: bs

/-- Stable sort by descending score (`nlargest` orders the whole frame,
then the caller takes a prefix). -/
def rankDesc : List (String × Rat) → List (String × Rat)
  | [] => []
  | a :: as => insDesc a (rankDesc as)

/-- Stable ascending insertion, mirroring `insDesc` for `nsmallest`. -/
def insAsc (a : String × Rat) : List (String × Rat) → List (String × Rat)
  | [] => [a]
  | b :: bs => if b.2 < a.2 then b :: insAsc a bs else a :: b :: bs

/-- Stable sort by ascending score. -/
def rankAsc : List (String × Rat) → List (String × Rat)
  | [] => []
  | a :: as => insAsc a (rankAsc as)

/-- The strict order in which `rankDesc` lists the products of a
category: strictly greater score first and, among equal scores, names in
ascending order (the stable sort preserves the name-sorted `groupby`
order). -/
def lexDesc (a b : String × Rat) : Prop :=
  b.2 < a.2 ∨ (a.2 = b.2 ∧ a.1 < b.1)

/-- Mirror of `lexDesc` for `rankAsc`: strictly smaller score first,
names ascending among equal scores. -/
def lexAsc (a b : String × Rat) : Prop :=
  a.2 < b.2 ∨ (a.2 = b.2 ∧ a.1 < b.1)

/-- Embedding of
`product_sentiments.nlargest(3, 'sentiment_score_avg')['name'].tolist()`
(src/app.py line 107): the first 3 rows by descending score, ties kept in
first-occurrence order. -/
def top_products (df : List ARow) (c : String) : List String :=
  ((rankDesc (product_sentiments df c)).take 3).map (·.1)

/-- Embedding of
`product_sentiments.nsmallest(1, 'sentiment_score_avg')['name'].iloc[0]`
(src/app.py line 108): the first row by ascending score (`none` models
the `iloc[0]` failure on an empty frame, which cannot happen for a
category drawn from the table itself). -/
def bottom_product (df : List ARow) (c : String) : Option String :=
  ((rankAsc (product_sentiments df c)).head?).map (·.1)

/-- Embedding of
`category_df[category_df['name'].isin(top_products)]['reviews.text'].tolist()`
(src/app.py line 111): the review texts of the category's rows whose
product is among the top 3, in table order. -/
def top_reviews (df : List ARow) (c : String) : List String :=
  ((category_df df c).filter (fun r => decide (r.name ∈ top_products df c))).map
    (·.reviews_text)

/-- The review texts actually passed to the article prompt:
`top_reviews[:5]` (src/app.py line 118). -/
def article_reviews (df : List ARow) (c : String) : List String :=
  (top_reviews df c).take 5

/-- The payload `generate_article` receives for one category
(src/app.py lines 114-119): category name, top-3 names, bottom-1 name and
the first five collected reviews joined by spaces. -/
structure GenRequest where
  category : String
  top_products : List String
  bottom_product : String
  reviews : String
deriving Repr, DecidableEq

/-- Embedding of `generate_article` (src/app.py lines 45-74): one
synchronous call to the external completion endpoint, whose outcome
(`response.choices[0].text.strip()` or a raised error) is the black box
`complete`.  The second component records the requests issued: exactly
one, with no retry and no fallback. -/
def generate_article (complete : GenRequest → Except String String)
    (req : GenRequest) : Except String String × List GenRequest :=
  (complete req, [req])

/-- The request the category loop builds for category `c`
(src/app.py lines 114-119). -/
def mkReq (df : List ARow) (c : String) : GenRequest :=
  ⟨c, top_products df c, (bottom_product df c).getD "",
    String.intercalate " " (article_reviews df c)⟩

/-- The distinct values of a list in first-occurrence order:
`df['cluster_name'].unique()` (src/app.py line 98).  (Removing the later
duplicates of `a` after deduplicating the tail keeps exactly the first
occurrence of every value, in order.) -/
def uniqueFirst : List String → List String
  | [] => []
  | a :: as => a :: (uniqueFirst as).filter (fun x => decide (x ≠ a))

/-- Embedding of the per-category loop (src/app.py lines 98-123).  The
whole loop runs inside a single `try`, so a raised `GenerationError`
aborts every remaining category; this is the `Except.error` short
circuit.  The first component is the displayed `(category, article)`
sequence (or the error); the second records every generation request
issued, in order. -/
def run_loop (complete : GenRequest → Except String String) (df : List ARow) :
    List String → Except String (List (String × String)) × List GenRequest
  | [] => (Except.ok [], [])
  | c :: cs =>
    match generate_article complete (mkReq df c) with
    | (Except.error e, calls) => (Except.error e, calls)
    | (Except.ok a, calls) =>
      let rest := run_loop complete df cs
      (rest.1.map (fun l => (c, a) :: l), calls ++ rest.2)

/-- One full reporter run: iterate the loop over the distinct categories
of the table, in first-occurrence order. -/
def run_app (complete : GenRequest → Except String String) (df : List ARow) :
    Except String (List (String × String)) × List GenRequest :=
  run_loop complete df (uniqueFirst (df.map (·.cluster_name)))

/-! ### Concrete fixtures (used by witnesses and counterexamples) -/

/-- A single input row before classification. -/
def exRow : Row := { reviews_text := "great", name := "A", cluster_name := "E" }

/-- The row `exRow` after classification with a constant "positive"
predictor. -/
def exRowPos : Row :=
  { exRow with sentiment := some "positive", sentiment_score := some 2 }

/-- Shorthand constructor for already-scored rows. -/
def mkS (t n c : String) (s : Rat) : SRow := ⟨t, n, c, s⟩

/-- A one-category table with four products whose mean scores are
A = 2, B = 3/2, C = 1, D = 1/2 (the spec's top-3 example). -/
def exDf4 : List SRow :=
  [ mkS "a1" "A" "Electronics" 2, mkS "a2" "A" "Electronics" 2,
    mkS "b1" "B" "Electronics" 2, mkS "b2" "B" "Electronics" 1,
    mkS "c1" "C" "Electronics" 1,
    mkS "d1" "D" "Electronics" 0, mkS "d2" "D" "Electronics" 1 ]

/-- A table with a score tie: products P and Q both have mean 1, R has
mean 0. -/
def tieDf : List SRow :=
  [ mkS "p1" "P" "cat" 1, mkS "q1" "Q" "cat" 1, mkS "r1" "R" "cat" 0 ]

/-- The tie table with its first two rows swapped (a permutation of
`tieDf`). -/
def tieDfSwap : List SRow :=
  [ mkS "q1" "Q" "cat" 1, mkS "p1" "P" "cat" 1, mkS "r1" "R" "cat" 0 ]

/-- A one-category, one-product table. -/
def oneDf : List SRow := [mkS "r1" "Solo" "cat" 2]

/-- A two-category table for exercising the generation loop. -/
def twoCatDf : List SRow :=
  [ mkS "x1" "X" "cat1" 2, mkS "y1" "Y" "cat2" 1 ]

/-- A completion stub that fails (as `GenerationError` would) exactly on
`cat2` and answers every other request. -/
def failSecond : GenRequest → Except String String :=
  fun req => if req.category = "cat2" then Except.error "quota" else Except.ok "article"

/-! ## Lemmas: the sorted key sequence -/

theorem strLt_iff (a b : String) : strLt a b = true ↔ a < b := by
  simp [strLt, String.lt_iff_toList_lt, String.toList]

theorem strLt_eq_false (a b : String) : strLt a b = false ↔ ¬ a < b := by
  rw [← strLt_iff]
  cases strLt a b <;> simp

theorem eq_of_not_strLt {a b : String} (h1 : strLt a b = false)
    (h2 : strLt b a = false) : a = b :=
  le_antisymm (not_lt.mp ((strLt_eq_false b a).1 h2))
    (not_lt.mp ((strLt_eq_false a b).1 h1))

theorem mem_insertKey (x a : String) (l : List String) :
    x ∈ insertKey a l ↔ x = a ∨ x ∈ l := by
  induction l with
  | nil => simp [insertKey]
  | cons b bs ih =>
    unfold insertKey
    by_cases hab : strLt a b = true
    · rw [if_pos hab]
      simp [List.mem_cons]
    · rw [if_neg hab]
      by_cases hba : strLt b a = true
      · rw [if_pos hba]
        simp only [List.mem_cons, ih]
        tauto
      · rw [if_neg hba]
        rw [Bool.not_eq_true] at hab hba
        have heq : a = b := eq_of_not_strLt hab hba
        subst heq
        simp only [List.mem_cons]
        tauto

theorem sorted_insertKey (a : String) (l : List String)
    (h : l.Pairwise (· < ·)) : (insertKey a l).Pairwise (· < ·) := by
  induction l with
  | nil => simp [insertKey]
  | cons b bs ih =>
    rw [List.pairwise_cons] at h
    obtain ⟨hb, hbs⟩ := h
    unfold insertKey
    by_cases hab : strLt a b = true
    · rw [if_pos hab]
      refine List.pairwise_cons.mpr ⟨?_, List.pairwise_cons.mpr ⟨hb, hbs⟩⟩
      intro x hx
      rcases List.mem_cons.mp hx with rfl | hx
      · exact (strLt_iff a x).1 hab
      · exact lt_trans ((strLt_iff a b).1 hab) (hb x hx)
    · rw [if_neg hab]
      by_cases hba : strLt b a = true
      · rw [if_pos hba]
        refine List.pairwise_cons.mpr ⟨?_, ih hbs⟩
        intro x hx
        rcases (mem_insertKey x a bs).1 hx with rfl | hx
        · exact (strLt_iff b x).1 hba
        · exact hb x hx
      · rw [if_neg hba]
        rw [Bool.not_eq_true] at hab hba
        have heq : a = b := eq_of_not_strLt hab hba
        subst heq
        exact List.pairwise_cons.mpr ⟨hb, hbs⟩

theorem sorted_sortKeys (l : List String) : (sortKeys l).Pairwise (· < ·) := by
  induction l with
  | nil => exact List.Pairwise.nil
  | cons a as ih => exact sorted_insertKey a (sortKeys as) ih

theorem mem_sortKeys (x : String) (l : List String) :
    x ∈ sortKeys l ↔ x ∈ l := by
  induction l with
  | nil => simp [sortKeys]
  | cons a as ih =>
    unfold sortKeys
    rw [mem_insertKey, ih, List.mem_cons]

theorem strLt_self_eq_false (p : String) : strLt p p = false :=
  (strLt_eq_false p p).mpr (lt_irrefl p)

theorem sortKeys_all_eq (p : String) :
    ∀ l : List String, l ≠ [] → (∀ x ∈ l, x = p) → sortKeys l = [p]
  | [], hne, _ => absurd rfl hne
  | [a], _, h => by
    have ha : a = p := h a (List.mem_cons_self a [])
    rw [show sortKeys [a] = [a] by simp [sortKeys, insertKey], ha]
  | a :: b :: bs, _, h => by
    have ha : a = p := h a (List.mem_cons_self a (b :: bs))
    have hrec : sortKeys (b :: bs) = [p] :=
      sortKeys_all_eq p (b :: bs) (by simp)
        (fun x hx => h x (List.mem_cons_of_mem a hx))
    show insertKey a (sortKeys (b :: bs)) = [p]
    rw [hrec, ha]
    show insertKey p [p] = [p]
    unfold insertKey
    rw [if_neg (by simp [strLt_self_eq_false]),
      if_neg (by simp [strLt_self_eq_false])]

/-! ## Lemmas: the aggregation step -/

theorem flatMap_eq_map_of {α β : Type} (l : List α) (g : α → List β)
    (h : α → β) (hgh : ∀ r ∈ l, g r = [h r]) : l.flatMap g = l.map h := by
  induction l with
  | nil => rfl
  | cons a as ih =>
    rw [List.flatMap_cons, hgh a (List.mem_cons_self a as),
      ih (fun r hr => hgh r (List.mem_cons_of_mem a hr)), List.map_cons]
    rfl

theorem filter_eq_of_nodup {α : Type} [DecidableEq α] (l : List α) (a : α)
    (hnd : l.Nodup) (ha : a ∈ l) :
    l.filter (fun x => decide (x = a)) = [a] := by
  induction l with
  | nil => cases ha
  | cons b bs ih =>
    rw [List.nodup_cons] at hnd
    rcases List.mem_cons.mp ha with rfl | ha'
    · rw [List.filter_cons_of_pos (by simp)]
      have hnil : bs.filter (fun x => decide (x = a)) = [] := by
        rw [List.filter_eq_nil_iff]
        intro x hx
        simp only [decide_eq_true_eq]
        intro hxa
        exact hnd.1 (hxa ▸ hx)
      rw [hnil]
    · have hb : ¬ (b = a) := fun hba => hnd.1 (hba ▸ ha')
      rw [List.filter_cons_of_neg (by simp [hb])]
      exact ih hnd.2 ha'

theorem product_scores_filter (df : List SRow) (r : SRow) (hr : r ∈ df) :
    (product_scores df).filter
      (fun g => decide (g.cluster_name = r.cluster_name ∧ g.name = r.name)) =
    [⟨r.cluster_name, r.name, groupMean df r.cluster_name r.name⟩] := by
  unfold product_scores
  rw [List.filter_map]
  have hcong : (df.map (fun x => (x.cluster_name, x.name))).dedup.filter
      ((fun g => decide (g.cluster_name = r.cluster_name ∧ g.name = r.name)) ∘
        (fun k => (⟨k.1, k.2, groupMean df k.1 k.2⟩ : GRow))) =
      (df.map (fun x => (x.cluster_name, x.name))).dedup.filter
        (fun k => decide (k = (r.cluster_name, r.name))) := by
    apply List.filter_congr
    intro k _
    apply decide_eq_decide.mpr
    constructor
    · rintro ⟨h1, h2⟩
      exact Prod.ext h1 h2
    · rintro rfl
      exact ⟨rfl, rfl⟩
  rw [hcong, filter_eq_of_nodup ((df.map (fun x => (x.cluster_name, x.name))).dedup)
    (r.cluster_name, r.name) (List.nodup_dedup _)
    (List.mem_dedup.mpr (List.mem_map_of_mem _ hr))]
  rfl

theorem calculate_average_scores_eq (df : List SRow) :
    calculate_average_scores df =
      df.map (fun r => ARow.mk r (groupMean df r.cluster_name r.name)) := by
  unfold calculate_average_scores mergeAvg
  apply flatMap_eq_map_of
  intro r hr
  rw [product_scores_filter df r hr]
  rfl

/-- Claim C1: after the aggregation step (`calculate_average_scores`),
every row of the returned table carries a `sentiment_score_avg` equal to
the arithmetic mean of `sentiment_score` over exactly the rows sharing
its own (category, product) key, and for every input table the returned
table has exactly the same rows as the input in order — the same number
of rows, each matched to exactly one group average, none duplicated,
none lost. -/
theorem C1_aggregation_attaches_group_means (df : List SRow) :
    (calculate_average_scores df).length = df.length ∧
    calculate_average_scores df =
      df.map (fun r => ARow.mk r (groupMean df r.cluster_name r.name)) := by
  refine ⟨?_, calculate_average_scores_eq df⟩
  rw [calculate_average_scores_eq df]
  exact List.length_map _ _

/-! ## Lemmas: permutation invariance -/

theorem groupMean_perm {df df' : List SRow} (h : df.Perm df') (c p : String) :
    groupMean df c p = groupMean df' c p := by
  unfold groupMean ratMean
  have hm : ((groupRows df c p).map (·.sentiment_score)).Perm
      ((groupRows df' c p).map (·.sentiment_score)) := (h.filter _).map _
  rw [hm.sum_eq, hm.length_eq]

/-- Claim C6: the aggregation is deterministic and order-independent —
for every input table and every permutation of its rows, every
(category, product) average computed on the permuted table equals the
one computed on the original, the run on the permuted table attaches the
original table's group means to every row, and two runs on the same
input are identical. -/
theorem C6_aggregation_order_independent (df df' : List SRow)
    (h : df.Perm df') :
    (∀ c p, groupMean df' c p = groupMean df c p) ∧
    calculate_average_scores df' =
      df'.map (fun r => ARow.mk r (groupMean df r.cluster_name r.name)) ∧
    calculate_average_scores df = calculate_average_scores df := by
  refine ⟨fun c p => (groupMean_perm h c p).symm, ?_, rfl⟩
  rw [calculate_average_scores_eq df']
  exact List.map_congr_left
    (fun r _ => by rw [groupMean_perm h r.cluster_name r.name])

/-- Witness for C6: the tie table with its first two rows swapped is a
permutation of the tie table, so the theorem applies to it. -/
theorem C6_witness :
    (∀ c p, groupMean tieDfSwap c p = groupMean tieDf c p) ∧
    calculate_average_scores tieDfSwap =
      tieDfSwap.map (fun r => ARow.mk r (groupMean tieDf r.cluster_name r.name)) ∧
    calculate_average_scores tieDf = calculate_average_scores tieDf :=
  C6_aggregation_order_independent tieDf tieDfSwap (List.Perm.swap _ _ _)

/-! ## Lemmas: the classifier step -/

/-- Counterexample to C2 as stated: for the out-of-set predicted label
"mixed", `process_reviews` silently yields a missing `sentiment_score`
(`Series.map` over the dict gives NaN); no error is raised, and the
score is not in {0, 1, 2}. -/
theorem C2_counterexample :
    ∃ r ∈ (process_reviews (fun _ => "mixed") [exRow]).1,
      r.sentiment = some "mixed" ∧ r.sentiment_score = none := by
  decide

/-- Claim C2 (amended): every row of the classifier output carries the
predicted label, and `sentiment_score` is the fixed mapping
{positive ↦ 2, neutral ↦ 1, negative ↦ 0} of that label when the label
is one of the three expected values; for any other label the score is
silently the missing value `none` — no error is raised (the source's
`Series.map` has no failure path). -/
theorem C2_label_mapping (predict : String → String) (df : List Row)
    (r : Row) (hr : r ∈ (process_reviews predict df).1) :
    r.sentiment = some (predict r.reviews_text) ∧
    r.sentiment_score = label_score_map (predict r.reviews_text) ∧
    (predict r.reviews_text = "positive" → r.sentiment_score = some 2) ∧
    (predict r.reviews_text = "neutral" → r.sentiment_score = some 1) ∧
    (predict r.reviews_text = "negative" → r.sentiment_score = some 0) ∧
    (predict r.reviews_text ≠ "positive" → predict r.reviews_text ≠ "neutral" →
      predict r.reviews_text ≠ "negative" → r.sentiment_score = none) := by
  simp only [process_reviews, List.map_map, List.mem_map] at hr
  obtain ⟨s, _, rfl⟩ := hr
  refine ⟨rfl, rfl, ?_, ?_, ?_, ?_⟩
  · intro h
    have h' : predict s.reviews_text = "positive" := h
    show label_score_map (predict s.reviews_text) = some 2
    rw [h']
    rfl
  · intro h
    have h' : predict s.reviews_text = "neutral" := h
    show label_score_map (predict s.reviews_text) = some 1
    rw [h']
    rfl
  · intro h
    have h' : predict s.reviews_text = "negative" := h
    show label_score_map (predict s.reviews_text) = some 0
    rw [h']
    rfl
  · intro h1 h2 h3
    have h1' : predict s.reviews_text ≠ "positive" := h1
    have h2' : predict s.reviews_text ≠ "neutral" := h2
    have h3' : predict s.reviews_text ≠ "negative" := h3
    show label_score_map (predict s.reviews_text) = none
    unfold label_score_map
    rw [if_neg h1', if_neg h2', if_neg h3']

/-- Witness for C2 (amended): the theorem applied to a one-row table and
a constant "positive" predictor. -/
theorem C2_witness :
    exRowPos.sentiment = some "positive" ∧
    exRowPos.sentiment_score = label_score_map "positive" ∧
    ("positive" = "positive" → exRowPos.sentiment_score = some 2) ∧
    ("positive" = "neutral" → exRowPos.sentiment_score = some 1) ∧
    ("positive" = "negative" → exRowPos.sentiment_score = some 0) ∧
    ("positive" ≠ "positive" → "positive" ≠ "neutral" →
      "positive" ≠ "negative" → exRowPos.sentiment_score = none) :=
  C2_label_mapping (fun _ => "positive") [exRow] exRowPos (by decide)

/-- Counterexample to C8 as stated: the caller's table is not unchanged
after the call — the column assignments mutate it (the function returns
the very object it was handed). -/
theorem C8_counterexample :
    (process_reviews (fun _ => "positive") [exRow]).2 ≠ [exRow] := by
  decide

/-- Claim C8 (amended): `process_reviews` adds the `sentiment` and
`sentiment_score` columns to the input table in place and returns that
same table: the returned table carries one (label, score) pair per input
row with all other fields unchanged, it has exactly the input's row
count, and the caller's table after the call equals the returned table
(the mutation is the only side effect). -/
theorem C8_returns_mutated_input (predict : String → String) (df : List Row) :
    (process_reviews predict df).2 = (process_reviews predict df).1 ∧
    (process_reviews predict df).1 =
      df.map (fun r =>
        { r with sentiment := some (predict r.reviews_text),
                 sentiment_score := label_score_map (predict r.reviews_text) }) ∧
    (process_reviews predict df).1.length = df.length := by
  refine ⟨rfl, ?_, ?_⟩
  · simp only [process_reviews, List.map_map]
    rfl
  · simp [process_reviews]

/-! ## Lemmas: the reporter's re-aggregation -/

theorem sum_all_eq (v : Rat) :
    ∀ l : List Rat, (∀ x ∈ l, x = v) → l.sum = (l.length : Rat) * v
  | [], _ => by simp
  | a :: as, h => by
    rw [List.sum_cons,
      sum_all_eq v as (fun x hx => h x (List.mem_cons_of_mem a hx)),
      h a (List.mem_cons_self a as), List.length_cons]
    push_cast
    ring

theorem ratMean_all_eq (l : List Rat) (v : Rat) (hne : l ≠ [])
    (h : ∀ x ∈ l, x = v) : ratMean l = v := by
  unfold ratMean
  rw [sum_all_eq v l h]
  have hn : (l.length : Rat) ≠ 0 :=
    Nat.cast_ne_zero.mpr (fun h0 => hne (List.length_eq_zero.mp h0))
  exact mul_div_cancel_left₀ v hn

theorem category_df_avg (df : List SRow) (c : String) :
    category_df (calculate_average_scores df) c =
      (categoryRows df c).map
        (fun r => ARow.mk r (groupMean df r.cluster_name r.name)) := by
  rw [calculate_average_scores_eq]
  unfold category_df categoryRows
  rw [List.filter_map]
  rfl

theorem category_names_avg (df : List SRow) (c : String) :
    (category_df (calculate_average_scores df) c).map (·.name) =
      (categoryRows df c).map (·.name) := by
  rw [category_df_avg, List.map_map]
  rfl

theorem product_rows_avg (df : List SRow) (c p : String) :
    (category_df (calculate_average_scores df) c).filter
        (fun r => decide (r.name = p)) =
      ((categoryRows df c).filter (fun r => decide (r.name = p))).map
        (fun r => ARow.mk r (groupMean df r.cluster_name r.name)) := by
  rw [category_df_avg, List.filter_map]
  rfl

/-- Claim C3: for every category, the reporter's re-aggregation — the
per-product mean of `sentiment_score_avg` over the category's rows —
produces, for each product, exactly the group mean of `sentiment_score`
the aggregator computed for that (category, product) pair: the two
computations are equivalent. -/
theorem C3_reaggregation_equals_group_mean (df : List SRow) (c : String) :
    product_sentiments (calculate_average_scores df) c =
      (sortKeys ((categoryRows df c).map (·.name))).map
        (fun p => (p, groupMean df c p)) := by
  unfold product_sentiments
  rw [category_names_avg]
  apply List.map_congr_left
  intro p hp
  refine Prod.ext rfl ?_
  show ratMean _ = groupMean df c p
  rw [product_rows_avg, List.map_map]
  have hp' : p ∈ (categoryRows df c).map (·.name) := (mem_sortKeys p _).1 hp
  obtain ⟨r0, hr0, hr0p⟩ := List.mem_map.mp hp'
  apply ratMean_all_eq
  · apply List.ne_nil_of_mem
    exact List.mem_map_of_mem _ (List.mem_filter.mpr ⟨hr0, by simp [hr0p]⟩)
  · intro x hx
    obtain ⟨r, hr, rfl⟩ := List.mem_map.mp hx
    obtain ⟨hrcat, hrp⟩ := List.mem_filter.mp hr
    have hname : r.name = p := of_decide_eq_true hrp
    have hcluster : r.cluster_name = c :=
      of_decide_eq_true (List.mem_filter.mp hrcat).2
    show groupMean df r.cluster_name r.name = groupMean df c p
    rw [hname, hcluster]

/-! ## Lemmas: the stable ranking -/

theorem insDesc_perm (a : String × Rat) (l : List (String × Rat)) :
    (insDesc a l).Perm (a :: l) := by
  induction l with
  | nil => exact List.Perm.refl _
  | cons b bs ih =>
    unfold insDesc
    by_cases h : a.2 < b.2
    · rw [if_pos h]
      exact (ih.cons b).trans (List.Perm.swap a b bs)
    · rw [if_neg h]

theorem rankDesc_perm (l : List (String × Rat)) : (rankDesc l).Perm l := by
  induction l with
  | nil => exact List.Perm.refl _
  | cons a as ih => exact (insDesc_perm a (rankDesc as)).trans (ih.cons a)

theorem insAsc_perm (a : String × Rat) (l : List (String × Rat)) :
    (insAsc a l).Perm (a :: l) := by
  induction l with
  | nil => exact List.Perm.refl _
  | cons b bs ih =>
    unfold insAsc
    by_cases h : b.2 < a.2
    · rw [if_pos h]
      exact (ih.cons b).trans (List.Perm.swap a b bs)
    · rw [if_neg h]

theorem rankAsc_perm (l : List (String × Rat)) : (rankAsc l).Perm l := by
  induction l with
  | nil => exact List.Perm.refl _
  | cons a as ih => exact (insAsc_perm a (rankAsc as)).trans (ih.cons a)

theorem pairwise_insDesc (a : String × Rat) (l : List (String × Rat))
    (hl : l.Pairwise lexDesc) (hn : ∀ x ∈ l, a.1 < x.1) :
    (insDesc a l).Pairwise lexDesc := by
  induction l with
  | nil => simp [insDesc]
  | cons b bs ih =>
    rw [List.pairwise_cons] at hl
    obtain ⟨hb, hbs⟩ := hl
    unfold insDesc
    by_cases h : a.2 < b.2
    · rw [if_pos h]
      refine List.pairwise_cons.mpr
        ⟨?_, ih hbs (fun x hx => hn x (List.mem_cons_of_mem b hx))⟩
      intro x hx
      rcases List.mem_cons.mp ((insDesc_perm a bs).mem_iff.1 hx) with rfl | hx'
      · exact Or.inl h
      · exact hb x hx'
    · rw [if_neg h]
      have hba : b.2 ≤ a.2 := not_lt.mp h
      have hab : lexDesc a b := by
        rcases lt_or_eq_of_le hba with hlt | heq
        · exact Or.inl hlt
        · exact Or.inr ⟨heq.symm, hn b (List.mem_cons_self b bs)⟩
      refine List.pairwise_cons.mpr
        ⟨?_, List.pairwise_cons.mpr ⟨hb, hbs⟩⟩
      intro x hx
      rcases List.mem_cons.mp hx with rfl | hx'
      · exact hab
      · rcases hb x hx' with h1 | ⟨h1, _⟩
        · exact Or.inl (lt_of_lt_of_le h1 hba)
        · rcases lt_or_eq_of_le hba with hlt | heq
          · exact Or.inl (h1 ▸ hlt)
          · exact Or.inr ⟨heq.symm.trans h1, hn x (List.mem_cons_of_mem b hx')⟩

theorem pairwise_rankDesc (l : List (String × Rat))
    (hl : l.Pairwise (fun a b => a.1 < b.1)) :
    (rankDesc l).Pairwise lexDesc := by
  induction l with
  | nil => exact List.Pairwise.nil
  | cons a as ih =>
    rw [List.pairwise_cons] at hl
    obtain ⟨ha, has⟩ := hl
    exact pairwise_insDesc a (rankDesc as) (ih has)
      (fun x hx => ha x ((rankDesc_perm as).mem_iff.1 hx))

theorem pairwise_insAsc (a : String × Rat) (l : List (String × Rat))
    (hl : l.Pairwise lexAsc) (hn : ∀ x ∈ l, a.1 < x.1) :
    (insAsc a l).Pairwise lexAsc := by
  induction l with
  | nil => simp [insAsc]
  | cons b bs ih =>
    rw [List.pairwise_cons] at hl
    obtain ⟨hb, hbs⟩ := hl
    unfold insAsc
    by_cases h : b.2 < a.2
    · rw [if_pos h]
      refine List.pairwise_cons.mpr
        ⟨?_, ih hbs (fun x hx => hn x (List.mem_cons_of_mem b hx))⟩
      intro x hx
      rcases List.mem_cons.mp ((insAsc_perm a bs).mem_iff.1 hx) with rfl | hx'
      · exact Or.inl h
      · exact hb x hx'
    · rw [if_neg h]
      have hab' : a.2 ≤ b.2 := not_lt.mp h
      have hab : lexAsc a b := by
        rcases lt_or_eq_of_le hab' with hlt | heq
        · exact Or.inl hlt
        · exact Or.inr ⟨heq, hn b (List.mem_cons_self b bs)⟩
      refine List.pairwise_cons.mpr
        ⟨?_, List.pairwise_cons.mpr ⟨hb, hbs⟩⟩
      intro x hx
      rcases List.mem_cons.mp hx with rfl | hx'
      · exact hab
      · rcases hb x hx' with h1 | ⟨h1, _⟩
        · exact Or.inl (lt_of_le_of_lt hab' h1)
        · rcases lt_or_eq_of_le hab' with hlt | heq
          · exact Or.inl (h1 ▸ hlt)
          · exact Or.inr ⟨heq.trans h1, hn x (List.mem_cons_of_mem b hx')⟩

theorem pairwise_rankAsc (l : List (String × Rat))
    (hl : l.Pairwise (fun a b => a.1 < b.1)) :
    (rankAsc l).Pairwise lexAsc := by
  induction l with
  | nil => exact List.Pairwise.nil
  | cons a as ih =>
    rw [List.pairwise_cons] at hl
    obtain ⟨ha, has⟩ := hl
    exact pairwise_insAsc a (rankAsc as) (ih has)
      (fun x hx => ha x ((rankAsc_perm as).mem_iff.1 hx))

theorem product_sentiments_names_lt (df : List ARow) (c : String) :
    (product_sentiments df c).Pairwise (fun a b => a.1 < b.1) := by
  unfold product_sentiments
  rw [List.pairwise_map]
  exact sorted_sortKeys _

theorem lexDesc_asymm (x y : String × Rat) (h1 : lexDesc x y)
    (h2 : lexDesc y x) : False := by
  rcases h1 with h1 | ⟨e1, n1⟩ <;> rcases h2 with h2 | ⟨e2, n2⟩
  · exact lt_irrefl _ (lt_trans h1 h2)
  · exact lt_irrefl _ (e2 ▸ h1)
  · exact lt_irrefl _ (e1 ▸ h2)
  · exact lt_irrefl _ (lt_trans n1 n2)

theorem mem_take_of_rel {α : Type} {R : α → α → Prop}
    (hasymm : ∀ x y, R x y → R y x → False) :
    ∀ (l : List α) (n : Nat) (a b : α), l.Pairwise R → a ∈ l →
      b ∈ l.take n → R a b → a ∈ l.take n
  | [], _, a, _, _, ha, _, _ => absurd ha (by simp)
  | _ :: _, 0, _, b, _, _, hb, _ => absurd hb (by simp)
  | c :: cs, n + 1, a, b, hp, ha, hb, hab => by
    rw [List.take_succ_cons] at hb ⊢
    rw [List.pairwise_cons] at hp
    obtain ⟨hc, hcs⟩ := hp
    rcases List.mem_cons.mp ha with rfl | ha'
    · exact List.mem_cons_self _ _
    · rcases List.mem_cons.mp hb with rfl | hb'
      · exact (hasymm a b hab (hc a ha')).elim
      · exact List.mem_cons_of_mem _
          (mem_take_of_rel hasymm cs n a b hcs ha' hb' hab)

theorem eq_of_fst_eq {l : List (String × Rat)}
    (hl : l.Pairwise (fun a b => a.1 < b.1)) {x y : String × Rat}
    (hx : x ∈ l) (hy : y ∈ l) (hxy : x.1 = y.1) : x = y := by
  induction l with
  | nil => cases hx
  | cons a as ih =>
    rw [List.pairwise_cons] at hl
    obtain ⟨ha, has⟩ := hl
    rcases List.mem_cons.mp hx with rfl | hx'
    · rcases List.mem_cons.mp hy with rfl | hy'
      · rfl
      · exact absurd (ha y hy') (by rw [hxy]; exact lt_irrefl y.1)
    · rcases List.mem_cons.mp hy with rfl | hy'
      · exact absurd (ha x hx') (by rw [hxy]; exact lt_irrefl y.1)
      · exact ih has hx' hy'

/-- Claim C4: for every category the reporter ranks exactly the
category's products, the top-3 list is the 3-element prefix (or all of a
shorter list) of the descending ranking, the bottom-1 pick attains the
minimum mean score and exists whenever the category has a product; in
particular, on the four-product example scoring A = 2, B = 3/2, C = 1,
D = 1/2, the top-3 list is ["A", "B", "C"] in descending order and the
bottom product is "D". -/
theorem C4_top3_descending_bottom1 (df : List ARow) (c : String) :
    (rankDesc (product_sentiments df c)).Perm (product_sentiments df c) ∧
    (rankDesc (product_sentiments df c)).Pairwise (fun x y => y.2 ≤ x.2) ∧
    (top_products df c).length = min 3 (product_sentiments df c).length ∧
    (rankAsc (product_sentiments df c)).Pairwise (fun x y => x.2 ≤ y.2) ∧
    (∀ bp, bottom_product df c = some bp →
      ∃ pr ∈ product_sentiments df c, pr.1 = bp ∧
        ∀ x ∈ product_sentiments df c, pr.2 ≤ x.2) ∧
    (product_sentiments df c ≠ [] →
      ∃ bp, bottom_product df c = some bp) ∧
    top_products (calculate_average_scores exDf4) "Electronics" = ["A", "B", "C"] ∧
    bottom_product (calculate_average_scores exDf4) "Electronics" = some "D" := by
  refine ⟨rankDesc_perm _, ?_, ?_, ?_, ?_, ?_, ?_, ?_⟩
  · refine (pairwise_rankDesc _ (product_sentiments_names_lt df c)).imp ?_
    intro x y h
    rcases h with h | ⟨h, _⟩
    · exact le_of_lt h
    · exact le_of_eq h.symm
  · unfold top_products
    rw [List.length_map, List.length_take, (rankDesc_perm _).length_eq]
  · refine (pairwise_rankAsc _ (product_sentiments_names_lt df c)).imp ?_
    intro x y h
    rcases h with h | ⟨h, _⟩
    · exact le_of_lt h
    · exact le_of_eq h
  · intro bp hb
    unfold bottom_product at hb
    rcases hhead : rankAsc (product_sentiments df c) with _ | ⟨hd, tl⟩
    · rw [hhead] at hb
      simp at hb
    · rw [hhead] at hb
      simp only [List.head?_cons, Option.map_some', Option.some_inj] at hb
      have hmem : hd ∈ product_sentiments df c := by
        apply (rankAsc_perm _).mem_iff.1
        rw [hhead]
        exact List.mem_cons_self hd tl
      refine ⟨hd, hmem, hb, ?_⟩
      intro x hx
      have hx' : x ∈ hd :: tl := by
        rw [← hhead]
        exact (rankAsc_perm _).mem_iff.2 hx
      have hpw := pairwise_rankAsc _ (product_sentiments_names_lt df c)
      rw [hhead, List.pairwise_cons] at hpw
      rcases List.mem_cons.mp hx' with rfl | hx''
      · exact le_refl _
      · rcases hpw.1 x hx'' with h1 | ⟨h1, _⟩
        · exact le_of_lt h1
        · exact le_of_eq h1
  · intro hne
    rcases hhead : rankAsc (product_sentiments df c) with _ | ⟨hd, tl⟩
    · exfalso
      have hlen := (rankAsc_perm (product_sentiments df c)).length_eq
      rw [hhead] at hlen
      exact hne (List.length_eq_zero.mp hlen.symm)
    · refine ⟨hd.1, ?_⟩
      unfold bottom_product
      rw [hhead]
      rfl
  · with_unfolding_all decide
  · with_unfolding_all decide

/-- Witness for C4: on the four-product example, the theorem's bottom
clauses are discharged at the concrete pick "D". -/
theorem C4_witness :
    (∃ pr ∈ product_sentiments (calculate_average_scores exDf4) "Electronics",
      pr.1 = "D" ∧
        ∀ x ∈ product_sentiments (calculate_average_scores exDf4) "Electronics",
          pr.2 ≤ x.2) ∧
    (∃ bp, bottom_product (calculate_average_scores exDf4) "Electronics" = some bp) := by
  have h := C4_top3_descending_bottom1 (calculate_average_scores exDf4) "Electronics"
  refine ⟨h.2.2.2.2.1 "D" (by with_unfolding_all decide),
    h.2.2.2.2.2.1 (by with_unfolding_all decide)⟩

/-- Claim C5: for every category containing exactly one distinct
product, the top-3 selection returns just that one product (no padding,
no error) and the bottom-1 selection returns the same product. -/
theorem C5_single_product_category (df : List ARow) (c p : String)
    (hne : category_df df c ≠ [])
    (hall : ∀ r ∈ category_df df c, r.name = p) :
    top_products df c = [p] ∧ bottom_product df c = some p := by
  have hnames : sortKeys ((category_df df c).map (·.name)) = [p] := by
    apply sortKeys_all_eq
    · intro h0
      exact hne (List.map_eq_nil_iff.mp h0)
    · intro x hx
      obtain ⟨r, hr, rfl⟩ := List.mem_map.mp hx
      exact hall r hr
  unfold top_products bottom_product product_sentiments
  rw [hnames]
  simp [rankDesc, insDesc, rankAsc, insAsc]

/-- Witness for C5: the one-product table run through the aggregator has
a single product "Solo" in category "cat", and both selections return
it. -/
theorem C5_witness :
    top_products (calculate_average_scores oneDf) "cat" = ["Solo"] ∧
    bottom_product (calculate_average_scores oneDf) "cat" = some "Solo" :=
  C5_single_product_category (calculate_average_scores oneDf) "cat" "Solo"
    (by with_unfolding_all decide) (by with_unfolding_all decide)

/-- Claim C7: for every category, the reviews passed to the prompt are
at most 5, and they are exactly the first (up to) 5 review texts, in
table order, among the rows of the category whose product is in the
top-3 set — a prefix of the matching rows, not a sample and not
re-ranked. -/
theorem C7_first_five_matching_reviews (df : List ARow) (c : String) :
    (article_reviews df c).length ≤ 5 ∧
    article_reviews df c =
      ((df.filter (fun r =>
        decide (r.cluster_name = c ∧ r.name ∈ top_products df c))).map
          (·.reviews_text)).take 5 ∧
    ∃ rest,
      (df.filter (fun r =>
        decide (r.cluster_name = c ∧ r.name ∈ top_products df c))).map
          (·.reviews_text) = article_reviews df c ++ rest ∧
      (article_reviews df c).length =
        min 5 ((df.filter (fun r =>
          decide (r.cluster_name = c ∧ r.name ∈ top_products df c))).map
            (·.reviews_text)).length := by
  have hfuse : top_reviews df c =
      (df.filter (fun r =>
        decide (r.cluster_name = c ∧ r.name ∈ top_products df c))).map
          (·.reviews_text) := by
    unfold top_reviews category_df
    rw [List.filter_filter]
    congr 1
    apply List.filter_congr
    intro r _
    simp [Bool.and_comm]
  refine ⟨?_, ?_, ?_⟩
  · exact List.length_take_le 5 _
  · unfold article_reviews
    rw [hfuse]
  · refine ⟨(top_reviews df c).drop 5, ?_, ?_⟩
    · rw [← hfuse]
      unfold article_reviews
      exact (List.take_append_drop 5 _).symm
    · rw [← hfuse]
      unfold article_reviews
      rw [List.length_take]

/-- Claim C10 (implicit): tie-breaking in the top-3 / bottom-1 selection
is deterministic — among products of a category with equal mean scores,
the product whose name sorts first lexicographically is preferred: if
the later name is selected into the top 3 then so is the earlier one,
and the bottom pick is never the later name of a tied pair (the
per-product grouping emits names in sorted order and the stable
largest/smallest selection keeps the first occurrence among ties). -/
theorem C10_tie_break_prefers_lex_first (df : List ARow) (c : String)
    (a b : String × Rat) (ha : a ∈ product_sentiments df c)
    (hb : b ∈ product_sentiments df c) (heq : a.2 = b.2)
    (hlt : a.1 < b.1) :
    (b.1 ∈ top_products df c → a.1 ∈ top_products df c) ∧
    bottom_product df c ≠ some b.1 := by
  have hnames := product_sentiments_names_lt df c
  constructor
  · intro htop
    unfold top_products at htop ⊢
    obtain ⟨h0, hh0, hfst⟩ := List.mem_map.mp htop
    have hh0' : h0 ∈ product_sentiments df c :=
      (rankDesc_perm _).mem_iff.1 (List.take_subset 3 _ hh0)
    have hb0 : h0 = b := eq_of_fst_eq hnames hh0' hb hfst
    subst hb0
    have ha' : a ∈ rankDesc (product_sentiments df c) :=
      (rankDesc_perm _).mem_iff.2 ha
    have haTake : a ∈ (rankDesc (product_sentiments df c)).take 3 :=
      mem_take_of_rel lexDesc_asymm _ 3 a h0
        (pairwise_rankDesc _ hnames) ha' hh0 (Or.inr ⟨heq, hlt⟩)
    exact List.mem_map_of_mem _ haTake
  · intro hbp
    unfold bottom_product at hbp
    rcases hhead : rankAsc (product_sentiments df c) with _ | ⟨hd, tl⟩
    · rw [hhead] at hbp
      simp at hbp
    · rw [hhead] at hbp
      simp only [List.head?_cons, Option.map_some', Option.some_inj] at hbp
      have hhd : hd ∈ product_sentiments df c := by
        apply (rankAsc_perm _).mem_iff.1
        rw [hhead]
        exact List.mem_cons_self hd tl
      have hdb : hd = b := eq_of_fst_eq hnames hhd hb hbp
      subst hdb
      have ha' : a ∈ hd :: tl := by
        rw [← hhead]
        exact (rankAsc_perm _).mem_iff.2 ha
      have hane : a ≠ hd := by
        intro h0
        rw [h0] at hlt
        exact lt_irrefl _ hlt
      have hatl : a ∈ tl := by
        rcases List.mem_cons.mp ha' with h0 | h0
        · exact absurd h0 hane
        · exact h0
      have hpw := pairwise_rankAsc _ hnames
      rw [hhead, List.pairwise_cons] at hpw
      rcases hpw.1 a hatl with h1 | ⟨_, h2⟩
      · rw [heq] at h1
        exact lt_irrefl _ h1
      · exact lt_irrefl _ (lt_trans hlt h2)

/-- Witness for C10: in the tie table, products P and Q both have mean
score 1 and "P" < "Q"; the theorem applies with Q's membership in the
top-3 discharged concretely. -/
theorem C10_witness :
    ("Q" ∈ top_products (calculate_average_scores tieDf) "cat" →
      "P" ∈ top_products (calculate_average_scores tieDf) "cat") ∧
    bottom_product (calculate_average_scores tieDf) "cat" ≠ some "Q" :=
  C10_tie_break_prefers_lex_first (calculate_average_scores tieDf) "cat"
    ("P", 1) ("Q", 1) (by with_unfolding_all decide)
    (by with_unfolding_all decide) rfl ((strLt_iff "P" "Q").1 (by decide))

/-! ## Lemmas: failure propagation in the generation loop -/

/-- Claim C9: if the external text-generation call fails with a
`GenerationError` for some category, the loop propagates that failure to
the caller without retry — the run ends with that error, the categories
after the failing one are never processed, exactly one request is issued
for the failing category, and (third clause) the whole app run surfaces
the same error when the failing category sits in its category list. -/
theorem C9_generation_error_propagates
    (complete : GenRequest → Except String String) (df : List ARow)
    (pre : List String) (c : String) (post : List String) (e : String)
    (hc : c ∉ pre)
    (hok : ∀ c' ∈ pre, ∃ s, complete (mkReq df c') = Except.ok s)
    (herr : complete (mkReq df c) = Except.error e) :
    run_loop complete df (pre ++ c :: post) =
      (Except.error e, pre.map (mkReq df) ++ [mkReq df c]) ∧
    (pre.map (mkReq df) ++ [mkReq df c]).count (mkReq df c) = 1 ∧
    (uniqueFirst (df.map (·.cluster_name)) = pre ++ c :: post →
      run_app complete df =
        (Except.error e, pre.map (mkReq df) ++ [mkReq df c])) := by
  have hloop : run_loop complete df (pre ++ c :: post) =
      (Except.error e, pre.map (mkReq df) ++ [mkReq df c]) := by
    induction pre with
    | nil =>
      show run_loop complete df (c :: post) = _
      unfold run_loop generate_article
      rw [herr]
      rfl
    | cons c0 cs ih =>
      obtain ⟨s0, hs0⟩ := hok c0 (List.mem_cons_self c0 cs)
      have ih' := ih (fun h0 => hc (List.mem_cons_of_mem c0 h0))
        (fun c' hc' => hok c' (List.mem_cons_of_mem c0 hc'))
      show run_loop complete df (c0 :: (cs ++ c :: post)) = _
      unfold run_loop generate_article
      rw [hs0]
      simp only [ih']
      rfl
  refine ⟨hloop, ?_, ?_⟩
  · rw [List.count_append]
    have h0 : (pre.map (mkReq df)).count (mkReq df c) = 0 := by
      apply List.count_eq_zero.mpr
      intro hmem
      obtain ⟨c', hc', hcc⟩ := List.mem_map.mp hmem
      have : c' = c := congrArg GenRequest.category hcc
      exact hc (this ▸ hc')
    rw [h0]
    simp
  · intro huniq
    unfold run_app
    rw [huniq]
    exact hloop

/-- Witness for C9: on the two-category table, a completion stub that
fails exactly on "cat2" makes the loop stop with the error after one
request per category up to and including "cat2". -/
theorem C9_witness :
    run_loop failSecond (calculate_average_scores twoCatDf)
        (["cat1"] ++ "cat2" :: []) =
      (Except.error "quota",
        (["cat1"].map (mkReq (calculate_average_scores twoCatDf)) ++
          [mkReq (calculate_average_scores twoCatDf) "cat2"])) ∧
    ((["cat1"].map (mkReq (calculate_average_scores twoCatDf)) ++
      [mkReq (calculate_average_scores twoCatDf) "cat2"])).count
        (mkReq (calculate_average_scores twoCatDf) "cat2") = 1 ∧
    (uniqueFirst ((calculate_average_scores twoCatDf).map (·.cluster_name)) =
        ["cat1"] ++ "cat2" :: [] →
      run_app failSecond (calculate_average_scores twoCatDf) =
        (Except.error "quota",
          (["cat1"].map (mkReq (calculate_average_scores twoCatDf)) ++
            [mkReq (calculate_average_scores twoCatDf) "cat2"]))) :=
  C9_generation_error_propagates failSecond (calculate_average_scores twoCatDf)
    ["cat1"] "cat2" [] "quota" (by decide)
    (by
      intro c' hc'
      have hc1 : c' = "cat1" := by simpa using hc'
      subst hc1
      exact ⟨"article", by with_unfolding_all rfl⟩)
    (by with_unfolding_all rfl)

end SentApp
